import Mathlib

/-!
Verification of the Genesis prompt-evolution engine (genetic algorithm for
prompt optimization). The definitions below are a shallow embedding of the
JavaScript module: external effects (the text-generation service and
Math.random) are modelled by an explicit environment of oracles indexed by a
call counter, stateful code threads the counter explicitly, and JavaScript
numbers are modelled by exact rationals. Fallible external calls return an
Option. Ghost fields (call counters, the per-generation fitness trace) only
record which operations ran; they never influence the computed data.
-/

namespace Genesis

/-- Call counters threaded through the engine, standing for the sequencing of
external effects. Field g indexes the external text-generation calls and r
the Math.random draws; mutCalls, crossCalls and reproCalls are ghost counters
recording how often mutatePrompt, crossoverPrompts and evolvePopulation were
entered. -/
structure Ctr where
  g : Nat
  r : Nat
  mutCalls : Nat
  crossCalls : Nat
  reproCalls : Nat
deriving DecidableEq

/-- Environment of external effects: gen models anthropic.messages.create,
returning the response text or none when the call fails, and rand models
Math.random; both may depend on the index of the call. -/
structure Env where
  gen : Nat → String → Option String
  rand : Nat → ℚ

def bumpG (c : Ctr) : Ctr := ⟨c.g + 1, c.r, c.mutCalls, c.crossCalls, c.reproCalls⟩

def bumpR (c : Ctr) : Ctr := ⟨c.g, c.r + 1, c.mutCalls, c.crossCalls, c.reproCalls⟩

def bumpMut (c : Ctr) : Ctr := ⟨c.g, c.r, c.mutCalls + 1, c.crossCalls, c.reproCalls⟩

def bumpCross (c : Ctr) : Ctr := ⟨c.g, c.r, c.mutCalls, c.crossCalls + 1, c.reproCalls⟩

def bumpRepro (c : Ctr) : Ctr := ⟨c.g, c.r, c.mutCalls, c.crossCalls, c.reproCalls + 1⟩

/-- One call of the external text-generation service. -/
def callGen (env : Env) (c : Ctr) (content : String) : Option String × Ctr :=
  (env.gen c.g content, bumpG c)

/-- One draw of Math.random. -/
def mathRandom (env : Env) (c : Ctr) : ℚ × Ctr :=
  (env.rand c.r, bumpR c)

/-- An individual of the population: a prompt with its fitness. -/
structure Individual where
  prompt : String
  fitness : ℚ
deriving DecidableEq

def defaultIndividual : Individual := ⟨"", 0⟩

/-- An entry of the improvements log. -/
structure GenRecord where
  generation : Nat
  fitness : ℚ
  improvement : ℚ
deriving DecidableEq

structure EvolutionConfig where
  basePrompt : String
  fitnessFunction : String
  generations : Nat
  populationSize : Nat
  mutationRate : ℚ
  crossoverRate : ℚ

structure EvolutionResult where
  best : String
  fitness : ℚ
  generationsRun : Nat
  improvements : List GenRecord
deriving DecidableEq

/-- JavaScript Math.floor on rationals. -/
def jsFloor (q : ℚ) : Int := Rat.floor q

/-- JavaScript Math.round on rationals. -/
def jsRound (q : ℚ) : Int := Rat.floor (q + 0.5)

/-- ASCII lower-casing of one character, model of toLowerCase. -/
def toLowerChar (ch : Char) : Char :=
  if 65 ≤ ch.toNat ∧ ch.toNat ≤ 90 then Char.ofNat (ch.toNat + 32) else ch

def lowerChars (s : String) : List Char := s.data.map toLowerChar

/-- Substring occurrence test, model of String.prototype.includes. -/
def hasSubstring : List Char → List Char → Bool
  | [], needle => needle.isEmpty
  | ch :: rest, needle => needle.isPrefixOf (ch :: rest) || hasSubstring rest needle

def strIncludes (s sub : String) : Bool := hasSubstring s.data sub.data

/-- The alternatives of the regex Kodierung|Code|Kategorie, lower-cased. -/
def codingPatterns : List (List Char) := ["kodierung".data, "code".data, "kategorie".data]

/-- Count of matches of an alternation regex with flags g and i: scan left to
right, at each position try the alternatives in order, on a match continue
after the matched text, otherwise advance one character. The fuel argument
makes the recursion structural; every step consumes at least one character,
so fuel = length of the scanned text never runs out. -/
def countMatchesAux (pats : List (List Char)) : Nat → List Char → Nat
  | 0, _ => 0
  | _, [] => 0
  | fuel + 1, ch :: rest =>
    match pats.find? (fun p => p.isPrefixOf (ch :: rest)) with
    | some p => 1 + countMatchesAux pats fuel (rest.drop (p.length - 1))
    | none => countMatchesAux pats fuel rest

def countMatches (pats : List (List Char)) (l : List Char) : Nat :=
  countMatchesAux pats l.length l

/-- Count of matches of Kodierung|Code|Kategorie, case-insensitive. -/
def countCodings (result : String) : Nat := countMatches codingPatterns (lowerChars result)

/-- Bonus for structure markers: result.includes of a bracket or a brace
(the two characters are written by code point to keep them out of the
source text). -/
def structureBonus (result : String) : ℚ :=
  if hasSubstring result.data [Char.ofNat 91] || hasSubstring result.data [Char.ofNat 123]
  then 0.2 else 0

/-- Bonus for codings found: Math.min(codingCount * 0.05, 0.2). -/
def codingBonus (result : String) : ℚ := min (countCodings result * 0.05) 0.2

/-- Bonus when a justification marker occurs (case-sensitive includes). -/
def reasoningBonus (result : String) : ℚ :=
  if strIncludes result "weil" || strIncludes result "da" || strIncludes result "Begründung"
  then 0.2 else 0

def methodTerms : List String :=
  ["induktiv", "deduktiv", "Ankerbeispiel", "Dimension", "Eigenschaft"]

/-- Number of methodological terms occurring in the result, comparing
lower-cased text. -/
def methodScoreOf (result : String) : Nat :=
  (methodTerms.filter (fun t => hasSubstring (lowerChars result) (lowerChars t))).length

/-- Bonus for methodological terms: methodScore * 0.08, with no cap. -/
def methodBonus (result : String) : ℚ := methodScoreOf result * 0.08

def idealLength : Nat := 1500

/-- Bonus for the response length: Math.max(0, 0.2 - lengthRatio * 0.2) with
lengthRatio = Math.abs(result.length - idealLength) / idealLength. -/
def lengthBonus (result : String) : ℚ :=
  max 0 (0.2 - (|(result.length : ℚ) - (idealLength : ℚ)| / (idealLength : ℚ)) * 0.2)

/-- The accumulated fitness sum before the final clamp. -/
def rawFitness (result : String) : ℚ :=
  structureBonus result + codingBonus result + reasoningBonus result
    + methodBonus result + lengthBonus result

/-- Fitness derived from one generated response: Math.min(fitness, 1). -/
def fitnessOfResult (result : String) : ℚ := min (rawFitness result) 1

/-- The fixed test text used for fitness evaluation. -/
def getTestText : String :=
  "Das Interview mit der Lehrerin zeigt deutlich, wie sehr die Digitalisierung\nden Schulalltag verändert hat. \"Früher haben wir alles auf Papier gemacht\",\nerzählt sie, \"heute nutzen die Kinder Tablets und lernen spielerisch.\"\nSie betont jedoch auch die Herausforderungen: \"Nicht alle Eltern können sich\ndie Geräte leisten, und manche Kinder sind zu Hause komplett offline.\"\nDie Ungleichheit sei ein großes Problem geworden. Trotzdem überwiegen für sie\ndie Vorteile: \"Die Motivation der Schüler ist gestiegen, besonders bei\nden sonst eher zurückhaltenden Kindern.\""

/-- The message content sent for a fitness evaluation. -/
def fitnessPromptContent (prompt : String) : String :=
  prompt ++ "\n\nText zur Analyse:\n" ++ getTestText

/-- Fitness of a single prompt: run the test analysis through the external
service and score the response; a failed call scores 0. The fitnessType
argument is accepted and ignored, as in the source. -/
def calculatePromptFitness (env : Env) (c : Ctr) (prompt fitnessType : String) : ℚ × Ctr :=
  match callGen env c (fitnessPromptContent prompt) with
  | (some result, c1) => (fitnessOfResult result, c1)
  | (none, c1) => (0, c1)

def mutations : List String :=
  ["Füge mehr Struktur hinzu", "Betone methodische Strenge", "Fordere mehr Begründungen",
   "Verlange konkrete Beispiele", "Füge Qualitätskriterien hinzu",
   "Vereinfache die Anweisungen", "Füge Schritt-für-Schritt Anleitung hinzu"]

/-- The message content sent for a mutation. -/
def mutationPromptContent (selectedMutation : String) (mutationStrength : ℚ)
    (prompt : String) : String :=
  "Modifiziere den folgenden Prompt für qualitative Analyse.\nÄnderung: " ++ selectedMutation
    ++ "\nStärke der Änderung: " ++ toString (jsRound (mutationStrength * 100))
    ++ "%\n\nOriginal-Prompt:\n" ++ prompt
    ++ "\n\nGib NUR den modifizierten Prompt zurück, keine Erklärungen."

/-- Mutation operator: pick a rewrite directive at random and delegate to the
external service; on failure return the original prompt. -/
def mutatePrompt (env : Env) (c : Ctr) (prompt : String) (mutationStrength : ℚ) : String × Ctr :=
  let rc := mathRandom env (bumpMut c)
  let selectedMutation := mutations.getD (jsFloor (rc.1 * (mutations.length : ℚ))).toNat ""
  match callGen env rc.2 (mutationPromptContent selectedMutation mutationStrength prompt) with
  | (some t, c2) => (t, c2)
  | (none, c2) => (prompt, c2)

/-- The message content sent for a crossover. -/
def crossoverPromptContent (parent1 parent2 : String) : String :=
  "Kombiniere die besten Elemente dieser zwei Prompts für qualitative Analyse zu einem neuen, verbesserten Prompt:\n\nPrompt A:\n"
    ++ parent1 ++ "\n\nPrompt B:\n" ++ parent2
    ++ "\n\nGib NUR den kombinierten Prompt zurück, keine Erklärungen."

/-- Crossover operator: delegate the merge to the external service; on failure
fall back to one of the parents picked by Math.random() > 0.5. -/
def crossoverPrompts (env : Env) (c : Ctr) (parent1 parent2 : String) : String × Ctr :=
  match callGen env (bumpCross c) (crossoverPromptContent parent1 parent2) with
  | (some t, c1) => (t, c1)
  | (none, c1) =>
    let rc := mathRandom env c1
    (if (0.5 : ℚ) < rc.1 then parent1 else parent2, rc.2)

/-- Stable insertion, descending by fitness, of x coming before the already
sorted elements of equal fitness. Together with sortByFitnessDesc this models
the stable Array.prototype.sort with comparator (a, b) => b.fitness - a.fitness. -/
def insertByFitness (x : Individual) : List Individual → List Individual
  | [] => [x]
  | y :: ys => if x.fitness < y.fitness then y :: insertByFitness x ys else x :: y :: ys

def sortByFitnessDesc : List Individual → List Individual
  | [] => []
  | x :: xs => insertByFitness x (sortByFitnessDesc xs)

/-- Draw tournamentSize random members of the population, with replacement;
an index outside the population (possible only for a Math.random model outside
the unit interval) yields the default individual. -/
def tournamentDraw (env : Env) (population : List Individual) : Ctr → Nat → List Individual × Ctr
  | c, 0 => ([], c)
  | c, k + 1 =>
    let rc := mathRandom env c
    let idx := (jsFloor (rc.1 * (population.length : ℚ))).toNat
    let rest := tournamentDraw env population rc.2 k
    (population.getD idx defaultIndividual :: rest.1, rest.2)

/-- Tournament selection: best of a random sample of the population. -/
def tournamentSelect (env : Env) (c : Ctr) (population : List Individual)
    (tournamentSize : Nat) : Individual × Ctr :=
  let tc := tournamentDraw env population c tournamentSize
  ((sortByFitnessDesc tc.1).headD defaultIndividual, tc.2)

/-- Evaluate each individual in order (the concurrent Promise.all dispatches
the calls in list order). -/
def evalEach (env : Env) (fitnessFunction : String) : Ctr → List Individual → List Individual × Ctr
  | c, [] => ([], c)
  | c, ind :: rest =>
    let fc := calculatePromptFitness env c ind.prompt fitnessFunction
    let tail := evalEach env fitnessFunction fc.2 rest
    (⟨ind.prompt, fc.1⟩ :: tail.1, tail.2)

/-- Evaluate the population and sort it descending by fitness. -/
def evaluateFitness (env : Env) (c : Ctr) (population : List Individual)
    (fitnessFunction : String) : List Individual × Ctr :=
  let ec := evalEach env fitnessFunction c population
  (sortByFitnessDesc ec.1, ec.2)

/-- The size - 1 mutated variants generated during initialization. -/
def initVariants (env : Env) (basePrompt : String) : Ctr → Nat → List Individual × Ctr
  | c, 0 => ([], c)
  | c, k + 1 =>
    let vc := mutatePrompt env c basePrompt 0.3
    let rest := initVariants env basePrompt vc.2 k
    (⟨vc.1, 0⟩ :: rest.1, rest.2)

/-- Initial population: the unmodified base prompt followed by size - 1
variants mutated with strength 0.3. -/
def initializePopulation (env : Env) (c : Ctr) (basePrompt : String) (size : Nat) :
    List Individual × Ctr :=
  let vc := initVariants env basePrompt c (size - 1)
  (⟨basePrompt, 0⟩ :: vc.1, vc.2)

/-- Elitism: copies of population[i] for i < eliteCount; an index beyond the
population (the source spreads an undefined entry into a fresh object there)
is modelled by the default individual. -/
def eliteSlice (population : List Individual) (eliteCount : Nat) : List Individual :=
  (List.range eliteCount).map (fun i => population.getD i defaultIndividual)

/-- One iteration of the reproduction while-loop: tournament-select two
parents, apply crossover with probability crossoverRate (else take parent 1),
then apply mutation with probability mutationRate. -/
def reproduceChild (env : Env) (population : List Individual)
    (mutationRate crossoverRate : ℚ) (c : Ctr) : String × Ctr :=
  let p1c := tournamentSelect env c population 3
  let p2c := tournamentSelect env p1c.2 population 3
  let rcc := mathRandom env p2c.2
  let childc :=
    if rcc.1 < crossoverRate then crossoverPrompts env rcc.2 p1c.1.prompt p2c.1.prompt
    else (p1c.1.prompt, rcc.2)
  let rmc := mathRandom env childc.2
  if rmc.1 < mutationRate then mutatePrompt env rmc.2 childc.1 0.2
  else (childc.1, rmc.2)

/-- Fill the new population by selection, crossover and mutation until it
reaches the size of the old one. The fuel argument makes the recursion
structural; every iteration appends exactly one individual, so the fuel
population.length - acc.length supplied by reproduceLoop never runs out
before the guard fails. -/
def reproduceLoopAux (env : Env) (population : List Individual)
    (mutationRate crossoverRate : ℚ) : Nat → Ctr → List Individual → List Individual × Ctr
  | 0, c, acc => (acc, c)
  | fuel + 1, c, acc =>
    if acc.length < population.length then
      let cc := reproduceChild env population mutationRate crossoverRate c
      reproduceLoopAux env population mutationRate crossoverRate fuel cc.2 (acc ++ [⟨cc.1, 0⟩])
    else (acc, c)

def reproduceLoop (env : Env) (population : List Individual) (mutationRate crossoverRate : ℚ)
    (c : Ctr) (acc : List Individual) : List Individual × Ctr :=
  reproduceLoopAux env population mutationRate crossoverRate
    (population.length - acc.length) c acc

/-- Build the next generation: keep the elite, then reproduce until full. The
reproCalls ghost counter records the entry. -/
def evolvePopulation (env : Env) (c : Ctr) (population : List Individual)
    (mutationRate crossoverRate : ℚ) (eliteCount : Nat) : List Individual × Ctr :=
  reproduceLoop env population mutationRate crossoverRate (bumpRepro c)
    (eliteSlice population eliteCount)

/-- The state of the generation loop. The trace field is ghost instrumentation
recording population[0].fitness of every evaluated generation. -/
structure EvoState where
  population : List Individual
  bestEver : Individual
  improvements : List GenRecord
  ctr : Ctr
  trace : List ℚ
deriving DecidableEq

/-- improvements[improvements.length - 1]?.fitness || 0 of the source: the
fitness of the last improvement record, or 0 when there is none. -/
def lastFitness (improvements : List GenRecord) : ℚ :=
  match improvements.getLast? with
  | some r => r.fitness
  | none => 0

/-- Track the best solution: on a strict fitness improvement update bestEver
and append a record whose improvement is the new fitness minus the fitness of
the last record (minus 0 at generation 0). -/
def trackBest (gen : Nat) (currentBest bestEver : Individual)
    (improvements : List GenRecord) : Individual × List GenRecord :=
  if bestEver.fitness < currentBest.fitness then
    (currentBest,
      improvements ++ [⟨gen, currentBest.fitness,
        currentBest.fitness - (if 0 < gen then lastFitness improvements else 0)⟩])
  else (bestEver, improvements)

/-- population[0] of the evaluated, sorted population: the fitness the break
check and the best-tracking read in one iteration. -/
def currentBestFitness (env : Env) (fitnessFunction : String) (st : EvoState) : ℚ :=
  ((evaluateFitness env st.ctr st.population fitnessFunction).1.headD defaultIndividual).fitness

/-- The loop state after the evaluation and best-tracking of one generation:
population evaluated and sorted, bestEver and improvements updated, the best
fitness of the generation appended to the ghost trace. -/
def evalState (env : Env) (fitnessFunction : String) (gen : Nat) (st : EvoState) : EvoState :=
  let pc := evaluateFitness env st.ctr st.population fitnessFunction
  let currentBest := pc.1.headD defaultIndividual
  let bi := trackBest gen currentBest st.bestEver st.improvements
  ⟨pc.1, bi.1, bi.2, pc.2, st.trace ++ [currentBest.fitness]⟩

/-- The loop state after the reproduction step: the population replaced by the
next generation, everything else unchanged. -/
def reproState (env : Env) (mutationRate crossoverRate : ℚ) (eliteCount : Nat)
    (st1 : EvoState) : EvoState :=
  let rc := evolvePopulation env st1.ctr st1.population mutationRate crossoverRate eliteCount
  ⟨rc.1, st1.bestEver, st1.improvements, rc.2, st1.trace⟩

/-- The generation loop of evolvePrompt: evaluate, track the best, break at
fitness 0.98, otherwise reproduce. The first argument counts the remaining
generations, the second is the current generation index. -/
def evolveLoop (env : Env) (fitnessFunction : String) (mutationRate crossoverRate : ℚ)
    (eliteCount : Nat) : Nat → Nat → EvoState → EvoState
  | 0, _, st => st
  | remaining + 1, gen, st =>
    let st1 := evalState env fitnessFunction gen st
    if (0.98 : ℚ) ≤ currentBestFitness env fitnessFunction st then st1
    else
      evolveLoop env fitnessFunction mutationRate crossoverRate eliteCount remaining (gen + 1)
        (reproState env mutationRate crossoverRate eliteCount st1)

/-- eliteCount = Math.max(2, Math.floor(populationSize * 0.1)); on naturals
the floor of populationSize * (1/10) is division by 10. -/
def eliteCountOf (populationSize : Nat) : Nat := max 2 (populationSize / 10)

/-- The state before the first generation. -/
def initState (env : Env) (cfg : EvolutionConfig) (c : Ctr) : EvoState :=
  let ic := initializePopulation env c cfg.basePrompt cfg.populationSize
  ⟨ic.1, ⟨cfg.basePrompt, 0⟩, [], ic.2, []⟩

/-- The loop state after at most n generations; the full run uses
n = cfg.generations. -/
def runUpTo (env : Env) (cfg : EvolutionConfig) (c : Ctr) (n : Nat) : EvoState :=
  evolveLoop env cfg.fitnessFunction cfg.mutationRate cfg.crossoverRate
    (eliteCountOf cfg.populationSize) n 0 (initState env cfg c)

/-- The final loop state of a run. -/
def evolveRun (env : Env) (cfg : EvolutionConfig) (c : Ctr) : EvoState :=
  runUpTo env cfg c cfg.generations

/-- The EvolutionResult built from a final state. -/
def resultOf (st : EvoState) : EvolutionResult :=
  ⟨st.bestEver.prompt, st.bestEver.fitness, st.improvements.length, st.improvements⟩

/-- Main entry point: prompt evolution. -/
def evolvePrompt (env : Env) (cfg : EvolutionConfig) (c : Ctr) : EvolutionResult :=
  resultOf (evolveRun env cfg c)

/-- Modelled from the claim for the refinement comparison: the same generation
loop, except that the reproduction step of the final generation is skipped. -/
def evolveLoopSkipFinal (env : Env) (fitnessFunction : String) (mutationRate crossoverRate : ℚ)
    (eliteCount : Nat) : Nat → Nat → EvoState → EvoState
  | 0, _, st => st
  | 1, gen, st => evalState env fitnessFunction gen st
  | remaining + 2, gen, st =>
    let st1 := evalState env fitnessFunction gen st
    if (0.98 : ℚ) ≤ currentBestFitness env fitnessFunction st then st1
    else
      evolveLoopSkipFinal env fitnessFunction mutationRate crossoverRate eliteCount
        (remaining + 1) (gen + 1) (reproState env mutationRate crossoverRate eliteCount st1)

/-- Modelled from the claim: evolvePrompt with the final reproduction skipped. -/
def evolvePromptNoFinalRepro (env : Env) (cfg : EvolutionConfig) (c : Ctr) : EvolutionResult :=
  resultOf (evolveLoopSkipFinal env cfg.fitnessFunction cfg.mutationRate cfg.crossoverRate
    (eliteCountOf cfg.populationSize) cfg.generations 0 (initState env cfg c))

/-- The chain condition on the improvements log: each improvement equals the
fitness of the record minus the fitness of the preceding record, starting
from prev. -/
def improvementChain : ℚ → List GenRecord → Prop
  | _, [] => True
  | prev, r :: rs => r.improvement = r.fitness - prev ∧ improvementChain r.fitness rs

structure FitnessMetricInfo where
  weight : ℚ
  description : String

/-- The fitnessMetrics entries of the exported GENESIS_CONFIG: the per-metric
weights the module itself documents. -/
def GENESIS_CONFIG_fitnessMetrics : List (String × FitnessMetricInfo) :=
  [("structure", ⟨0.2, "Strukturiertheit (JSON/Listen)"⟩),
   ("codings", ⟨0.2, "Anzahl gefundener Kodierungen"⟩),
   ("reasoning", ⟨0.2, "Begründungen vorhanden"⟩),
   ("methodology", ⟨0.2, "Methodologische Begriffe"⟩),
   ("length", ⟨0.2, "Optimale Antwortlänge"⟩)]

/-! Helper lemmas about the fitness evaluator. -/

lemma structureBonus_nonneg (r : String) : 0 ≤ structureBonus r := by
  rw [structureBonus]; split <;> norm_num

lemma codingBonus_nonneg (r : String) : 0 ≤ codingBonus r := by
  rw [codingBonus]
  exact le_min (by positivity) (by norm_num)

lemma codingBonus_le (r : String) : codingBonus r ≤ 0.2 := min_le_right _ _

lemma reasoningBonus_nonneg (r : String) : 0 ≤ reasoningBonus r := by
  rw [reasoningBonus]; split <;> norm_num

lemma methodBonus_nonneg (r : String) : 0 ≤ methodBonus r := by
  rw [methodBonus]; positivity

lemma lengthBonus_nonneg (r : String) : 0 ≤ lengthBonus r := le_max_left 0 _

lemma rawFitness_nonneg (r : String) : 0 ≤ rawFitness r := by
  rw [rawFitness]
  have h1 := structureBonus_nonneg r
  have h2 := codingBonus_nonneg r
  have h3 := reasoningBonus_nonneg r
  have h4 := methodBonus_nonneg r
  have h5 := lengthBonus_nonneg r
  linarith

lemma fitnessOfResult_nonneg (r : String) : 0 ≤ fitnessOfResult r :=
  le_min (rawFitness_nonneg r) (by norm_num)

lemma fitnessOfResult_le_one (r : String) : fitnessOfResult r ≤ 1 := min_le_right _ _

lemma calculatePromptFitness_nonneg (env : Env) (c : Ctr) (p ft : String) :
    0 ≤ (calculatePromptFitness env c p ft).1 := by
  rw [calculatePromptFitness, callGen]
  rcases env.gen c.g (fitnessPromptContent p) with _ | r
  · norm_num
  · exact fitnessOfResult_nonneg r

lemma calculatePromptFitness_le_one (env : Env) (c : Ctr) (p ft : String) :
    (calculatePromptFitness env c p ft).1 ≤ 1 := by
  rw [calculatePromptFitness, callGen]
  rcases env.gen c.g (fitnessPromptContent p) with _ | r
  · norm_num
  · exact fitnessOfResult_le_one r

lemma calculatePromptFitness_ctr (env : Env) (c : Ctr) (p ft : String) :
    (calculatePromptFitness env c p ft).2 = bumpG c := by
  rw [calculatePromptFitness, callGen]
  rcases env.gen c.g (fitnessPromptContent p) with _ | r <;> rfl

/-! Helper lemmas about the stable sort. -/

lemma insertByFitness_length (x : Individual) (l : List Individual) :
    (insertByFitness x l).length = l.length + 1 := by
  induction l with
  | nil => rfl
  | cons y ys ih =>
    rw [insertByFitness]
    split
    · simp [ih]
    · simp

lemma sortByFitnessDesc_length (l : List Individual) :
    (sortByFitnessDesc l).length = l.length := by
  induction l with
  | nil => rfl
  | cons x xs ih => rw [sortByFitnessDesc, insertByFitness_length, ih, List.length_cons]

lemma mem_insertByFitness {y x : Individual} {l : List Individual} :
    y ∈ insertByFitness x l ↔ y = x ∨ y ∈ l := by
  induction l with
  | nil => simp [insertByFitness]
  | cons z zs ih =>
    rw [insertByFitness]
    split
    · simp only [List.mem_cons, ih]
      tauto
    · simp only [List.mem_cons]

lemma mem_sortByFitnessDesc {y : Individual} {l : List Individual} :
    y ∈ sortByFitnessDesc l ↔ y ∈ l := by
  induction l with
  | nil => simp [sortByFitnessDesc]
  | cons x xs ih =>
    rw [sortByFitnessDesc]
    rw [mem_insertByFitness]
    simp [ih]

/-! Helper lemmas about counters. -/

lemma mutatePrompt_ctr (env : Env) (c : Ctr) (p : String) (s : ℚ) :
    (mutatePrompt env c p s).2 =
      ⟨c.g + 1, c.r + 1, c.mutCalls + 1, c.crossCalls, c.reproCalls⟩ := by
  rw [mutatePrompt]
  simp only [mathRandom, callGen]
  rcases env.gen (bumpR (bumpMut c)).g
      (mutationPromptContent
        (mutations.getD (jsFloor (env.rand (bumpMut c).r * (mutations.length : ℚ))).toNat "") s p)
    with _ | t <;> rfl

lemma crossoverPrompts_ctr_reproCalls (env : Env) (c : Ctr) (p1 p2 : String) :
    (crossoverPrompts env c p1 p2).2.reproCalls = c.reproCalls := by
  rw [crossoverPrompts]
  simp only [callGen, mathRandom]
  rcases env.gen (bumpCross c).g (crossoverPromptContent p1 p2) with _ | t <;> rfl

lemma tournamentDraw_ctr (env : Env) (pop : List Individual) (c : Ctr) (k : Nat) :
    (tournamentDraw env pop c k).2 =
      ⟨c.g, c.r + k, c.mutCalls, c.crossCalls, c.reproCalls⟩ := by
  induction k generalizing c with
  | zero => rfl
  | succ n ih =>
    rw [tournamentDraw]
    simp only [mathRandom, ih]
    simp only [bumpR]
    congr 1
    omega

lemma tournamentSelect_ctr (env : Env) (c : Ctr) (pop : List Individual) (k : Nat) :
    (tournamentSelect env c pop k).2 =
      ⟨c.g, c.r + k, c.mutCalls, c.crossCalls, c.reproCalls⟩ := by
  rw [tournamentSelect, tournamentDraw_ctr]

lemma evalEach_ctr (env : Env) (ffn : String) (l : List Individual) : ∀ c : Ctr,
    (evalEach env ffn c l).2 =
      ⟨c.g + l.length, c.r, c.mutCalls, c.crossCalls, c.reproCalls⟩ := by
  induction l with
  | nil => intro c; rfl
  | cons ind rest ih =>
    intro c
    rw [evalEach]
    simp only [ih, calculatePromptFitness_ctr, bumpG]
    simp only [List.length_cons]
    congr 1
    omega

lemma evalEach_length (env : Env) (ffn : String) (l : List Individual) : ∀ c : Ctr,
    (evalEach env ffn c l).1.length = l.length := by
  induction l with
  | nil => intro c; rfl
  | cons ind rest ih =>
    intro c
    rw [evalEach]
    simp [ih]

lemma evalEach_fitness_nonneg (env : Env) (ffn : String) (l : List Individual) : ∀ c : Ctr,
    ∀ x ∈ (evalEach env ffn c l).1, 0 ≤ x.fitness := by
  induction l with
  | nil => intro c x hx; simp [evalEach] at hx
  | cons ind rest ih =>
    intro c x hx
    rw [evalEach] at hx
    simp only [List.mem_cons] at hx
    rcases hx with hx | hx
    · subst hx
      exact calculatePromptFitness_nonneg env c ind.prompt ffn
    · exact ih _ x hx

lemma evaluateFitness_length (env : Env) (c : Ctr) (pop : List Individual) (ffn : String) :
    (evaluateFitness env c pop ffn).1.length = pop.length := by
  rw [evaluateFitness, sortByFitnessDesc_length, evalEach_length]

lemma evaluateFitness_ctr (env : Env) (c : Ctr) (pop : List Individual) (ffn : String) :
    (evaluateFitness env c pop ffn).2 =
      ⟨c.g + pop.length, c.r, c.mutCalls, c.crossCalls, c.reproCalls⟩ := by
  rw [evaluateFitness, evalEach_ctr]

lemma evaluateFitness_headD_nonneg (env : Env) (c : Ctr) (pop : List Individual) (ffn : String) :
    0 ≤ ((evaluateFitness env c pop ffn).1.headD defaultIndividual).fitness := by
  rw [evaluateFitness]
  rcases hx : sortByFitnessDesc (evalEach env ffn c pop).1 with _ | ⟨h, t⟩
  · norm_num [defaultIndividual]
  · have hm : h ∈ sortByFitnessDesc (evalEach env ffn c pop).1 := by
      rw [hx]; exact List.mem_cons_self h t
    rw [mem_sortByFitnessDesc] at hm
    exact evalEach_fitness_nonneg env ffn pop c h hm

/-! Helper lemmas about initialization and reproduction. -/

lemma initVariants_ctr (env : Env) (b : String) (k : Nat) : ∀ c : Ctr,
    (initVariants env b c k).2 =
      ⟨c.g + k, c.r + k, c.mutCalls + k, c.crossCalls, c.reproCalls⟩ := by
  induction k with
  | zero => intro c; rfl
  | succ n ih =>
    intro c
    rw [initVariants]
    simp only [ih, mutatePrompt_ctr]
    congr 1 <;> omega

lemma initVariants_length (env : Env) (b : String) (k : Nat) : ∀ c : Ctr,
    (initVariants env b c k).1.length = k := by
  induction k with
  | zero => intro c; rfl
  | succ n ih =>
    intro c
    rw [initVariants]
    simp [ih]

lemma initializePopulation_length (env : Env) (c : Ctr) (b : String) (size : Nat)
    (h : 1 ≤ size) : (initializePopulation env c b size).1.length = size := by
  rw [initializePopulation]
  simp only [List.length_cons, initVariants_length]
  omega

lemma initializePopulation_ctr (env : Env) (c : Ctr) (b : String) (size : Nat) :
    (initializePopulation env c b size).2 =
      ⟨c.g + (size - 1), c.r + (size - 1), c.mutCalls + (size - 1), c.crossCalls,
        c.reproCalls⟩ := by
  rw [initializePopulation, initVariants_ctr]

lemma eliteSlice_length (pop : List Individual) (k : Nat) : (eliteSlice pop k).length = k := by
  rw [eliteSlice]
  simp

lemma reproduceChild_reproCalls (env : Env) (pop : List Individual) (mr cr : ℚ) (c : Ctr) :
    (reproduceChild env pop mr cr c).2.reproCalls = c.reproCalls := by
  rw [reproduceChild]
  simp only [mathRandom, tournamentSelect_ctr]
  split
  · split
    · rw [mutatePrompt_ctr]
      simp [bumpR, crossoverPrompts_ctr_reproCalls]
    · simp [bumpR, crossoverPrompts_ctr_reproCalls]
  · split
    · rw [mutatePrompt_ctr]
      simp [bumpR]
    · simp [bumpR]

lemma reproduceLoopAux_reproCalls (env : Env) (pop : List Individual) (mr cr : ℚ) :
    ∀ (fuel : Nat) (c : Ctr) (acc : List Individual),
    (reproduceLoopAux env pop mr cr fuel c acc).2.reproCalls = c.reproCalls := by
  intro fuel
  induction fuel with
  | zero => intro c acc; rfl
  | succ n ih =>
    intro c acc
    rw [reproduceLoopAux]
    split
    · rw [ih, reproduceChild_reproCalls]
    · rfl

lemma reproduceLoopAux_length (env : Env) (pop : List Individual) (mr cr : ℚ) :
    ∀ (fuel : Nat) (c : Ctr) (acc : List Individual),
    (reproduceLoopAux env pop mr cr fuel c acc).1.length =
      if acc.length < pop.length then min pop.length (acc.length + fuel) else acc.length := by
  intro fuel
  induction fuel with
  | zero =>
    intro c acc
    rw [reproduceLoopAux]
    dsimp only
    split <;> omega
  | succ n ih =>
    intro c acc
    rw [reproduceLoopAux]
    split
    · rw [ih]
      simp only [List.length_append, List.length_cons, List.length_nil]
      split <;> omega
    · rfl

lemma evolvePopulation_length (env : Env) (c : Ctr) (pop : List Individual) (mr cr : ℚ)
    (ec : Nat) : (evolvePopulation env c pop mr cr ec).1.length = max ec pop.length := by
  rw [evolvePopulation, reproduceLoop, reproduceLoopAux_length]
  simp only [eliteSlice_length]
  split <;> omega

lemma evolvePopulation_reproCalls (env : Env) (c : Ctr) (pop : List Individual) (mr cr : ℚ)
    (ec : Nat) : (evolvePopulation env c pop mr cr ec).2.reproCalls = c.reproCalls + 1 := by
  rw [evolvePopulation, reproduceLoop, reproduceLoopAux_reproCalls]
  rfl

/-! The invariant of the improvements log. -/

/-- Strict increase of both the generation index and the fitness between two
improvement records. -/
def strictRecord (a b : GenRecord) : Prop :=
  a.generation < b.generation ∧ a.fitness < b.fitness

/-- Every recorded generation lies below gen. -/
def recsBelow (gen : Nat) (l : List GenRecord) : Prop := ∀ r ∈ l, r.generation < gen

/-- The fitness of the last record, or the seed value p for an empty log. -/
def lastFitnessFrom (p : ℚ) (l : List GenRecord) : ℚ :=
  match l.getLast? with
  | some r => r.fitness
  | none => p

lemma lastFitnessFrom_zero (l : List GenRecord) : lastFitnessFrom 0 l = lastFitness l := by
  rw [lastFitnessFrom, lastFitness]

lemma lastFitnessFrom_cons (p : ℚ) (x : GenRecord) (xs : List GenRecord) :
    lastFitnessFrom p (x :: xs) = lastFitnessFrom x.fitness xs := by
  cases xs with
  | nil => rfl
  | cons y ys =>
    have h : (y :: ys).getLast? = some ((y :: ys).getLast (by simp)) :=
      List.getLast?_eq_getLast _ (by simp)
    rw [lastFitnessFrom, lastFitnessFrom, List.getLast?_cons_cons, h]

/-- The combined invariant of the improvements log during the run: the
improvement entries form a difference chain from 0, records are strictly
increasing in generation and fitness, the last recorded fitness is the
best-ever fitness, the best-ever fitness is nonnegative, and all recorded
generations lie below the current generation index. -/
def ImpInv (gen : Nat) (l : List GenRecord) (bestFitness : ℚ) : Prop :=
  improvementChain 0 l ∧ List.Chain' strictRecord l ∧ lastFitness l = bestFitness ∧
    0 ≤ bestFitness ∧ recsBelow gen l

lemma ImpInv_mono {gen gen' : Nat} (h : gen ≤ gen') {l : List GenRecord} {f : ℚ} :
    ImpInv gen l f → ImpInv gen' l f := by
  rintro ⟨h1, h2, h3, h4, h5⟩
  exact ⟨h1, h2, h3, h4, fun r hr => lt_of_lt_of_le (h5 r hr) h⟩

lemma improvementChain_append (r : GenRecord) : ∀ (p : ℚ) (l : List GenRecord),
    improvementChain p l → r.improvement = r.fitness - lastFitnessFrom p l →
    improvementChain p (l ++ [r]) := by
  intro p l
  induction l generalizing p with
  | nil =>
    intro _ h
    exact ⟨by simpa [lastFitnessFrom] using h, trivial⟩
  | cons x xs ih =>
    intro hc h
    obtain ⟨hx, hxs⟩ := hc
    rw [lastFitnessFrom_cons] at h
    exact ⟨hx, ih x.fitness hxs h⟩

lemma recsBelow_zero {l : List GenRecord} (h : recsBelow 0 l) : l = [] := by
  cases l with
  | nil => rfl
  | cons x xs => exact absurd (h x (List.mem_cons_self x xs)) (Nat.not_lt_zero _)

lemma lastFitness_getLast? {l : List GenRecord} {x : GenRecord} (h : l.getLast? = some x) :
    lastFitness l = x.fitness := by
  rw [lastFitness, h]

lemma trackBest_inv (gen : Nat) (cb be : Individual) (l : List GenRecord)
    (hinv : ImpInv gen l be.fitness) (hcb : 0 ≤ cb.fitness) :
    ImpInv (gen + 1) (trackBest gen cb be l).2 (trackBest gen cb be l).1.fitness := by
  obtain ⟨hchain, hincr, hlast, hnn, hbelow⟩ := hinv
  rw [trackBest]
  split
  · rename_i hgt
    refine ⟨?_, ?_, ?_, hcb, ?_⟩
    · refine improvementChain_append _ 0 l hchain ?_
      rw [lastFitnessFrom_zero]
      rcases Nat.eq_zero_or_pos gen with hg | hg
      · subst hg
        rw [recsBelow_zero hbelow]
        simp [lastFitness]
      · simp [hg]
    · rw [List.chain'_append]
      refine ⟨hincr, List.chain'_singleton _, ?_⟩
      intro x hx y hy
      simp only [List.head?_cons, Option.mem_def, Option.some.injEq] at hy
      subst hy
      have hxl : l.getLast? = some x := hx
      refine ⟨hbelow x (List.mem_of_mem_getLast? hxl), ?_⟩
      have hxf : x.fitness = be.fitness := by rw [← lastFitness_getLast? hxl, hlast]
      show x.fitness < cb.fitness
      rw [hxf]
      exact hgt
    · rw [lastFitness, List.getLast?_concat]
    · intro r hr
      rw [List.mem_append] at hr
      rcases hr with hr | hr
      · exact Nat.lt_succ_of_lt (hbelow r hr)
      · simp only [List.mem_singleton] at hr
        subst hr
        exact Nat.lt_succ_self gen
  · exact ⟨hchain, hincr, hlast, hnn, fun r hr => Nat.lt_succ_of_lt (hbelow r hr)⟩

/-! Projection lemmas for the loop states. -/

lemma evalState_population (env : Env) (ffn : String) (gen : Nat) (st : EvoState) :
    (evalState env ffn gen st).population = (evaluateFitness env st.ctr st.population ffn).1 :=
  rfl

lemma evalState_bestEver (env : Env) (ffn : String) (gen : Nat) (st : EvoState) :
    (evalState env ffn gen st).bestEver =
      (trackBest gen ((evaluateFitness env st.ctr st.population ffn).1.headD defaultIndividual)
        st.bestEver st.improvements).1 := rfl

lemma trackBest_length (gen : Nat) (cb be : Individual) (l : List GenRecord) :
    (trackBest gen cb be l).2.length ≤ l.length + 1 := by
  rw [trackBest]
  split
  · simp
  · simp

lemma evalState_improvements (env : Env) (ffn : String) (gen : Nat) (st : EvoState) :
    (evalState env ffn gen st).improvements =
      (trackBest gen ((evaluateFitness env st.ctr st.population ffn).1.headD defaultIndividual)
        st.bestEver st.improvements).2 := rfl

lemma evalState_trace (env : Env) (ffn : String) (gen : Nat) (st : EvoState) :
    (evalState env ffn gen st).trace = st.trace ++ [currentBestFitness env ffn st] := rfl

lemma evalState_ctr (env : Env) (ffn : String) (gen : Nat) (st : EvoState) :
    (evalState env ffn gen st).ctr = (evaluateFitness env st.ctr st.population ffn).2 := rfl

lemma evalState_ctr_reproCalls (env : Env) (ffn : String) (gen : Nat) (st : EvoState) :
    (evalState env ffn gen st).ctr.reproCalls = st.ctr.reproCalls := by
  rw [evalState_ctr, evaluateFitness_ctr]

lemma evalState_trace_length (env : Env) (ffn : String) (gen : Nat) (st : EvoState) :
    (evalState env ffn gen st).trace.length = st.trace.length + 1 := by
  rw [evalState_trace]
  simp

lemma evalState_improvements_length (env : Env) (ffn : String) (gen : Nat) (st : EvoState) :
    (evalState env ffn gen st).improvements.length ≤ st.improvements.length + 1 :=
  trackBest_length gen _ st.bestEver st.improvements

lemma reproState_bestEver (env : Env) (mr cr : ℚ) (ec : Nat) (st1 : EvoState) :
    (reproState env mr cr ec st1).bestEver = st1.bestEver := rfl

lemma reproState_improvements (env : Env) (mr cr : ℚ) (ec : Nat) (st1 : EvoState) :
    (reproState env mr cr ec st1).improvements = st1.improvements := rfl

lemma reproState_trace (env : Env) (mr cr : ℚ) (ec : Nat) (st1 : EvoState) :
    (reproState env mr cr ec st1).trace = st1.trace := rfl

lemma reproState_population_length (env : Env) (mr cr : ℚ) (ec : Nat) (st1 : EvoState) :
    (reproState env mr cr ec st1).population.length = max ec st1.population.length :=
  evolvePopulation_length env st1.ctr st1.population mr cr ec

lemma reproState_ctr_reproCalls (env : Env) (mr cr : ℚ) (ec : Nat) (st1 : EvoState) :
    (reproState env mr cr ec st1).ctr.reproCalls = st1.ctr.reproCalls + 1 :=
  evolvePopulation_reproCalls env st1.ctr st1.population mr cr ec

/-! The loop inductions. -/

lemma evalState_ImpInv (env : Env) (ffn : String) (gen : Nat) (st : EvoState)
    (h : ImpInv gen st.improvements st.bestEver.fitness) :
    ImpInv (gen + 1) (evalState env ffn gen st).improvements
      (evalState env ffn gen st).bestEver.fitness :=
  trackBest_inv gen _ st.bestEver st.improvements h
    (evaluateFitness_headD_nonneg env st.ctr st.population ffn)

lemma evolveLoop_ImpInv (env : Env) (ffn : String) (mr cr : ℚ) (ec : Nat) :
    ∀ (remaining gen : Nat) (st : EvoState),
    ImpInv gen st.improvements st.bestEver.fitness →
    ImpInv (gen + remaining) (evolveLoop env ffn mr cr ec remaining gen st).improvements
      (evolveLoop env ffn mr cr ec remaining gen st).bestEver.fitness := by
  intro remaining
  induction remaining with
  | zero =>
    intro gen st h
    simpa using h
  | succ n ih =>
    intro gen st h
    rw [evolveLoop]
    split
    · exact ImpInv_mono (by omega) (evalState_ImpInv env ffn gen st h)
    · rw [show gen + (n + 1) = (gen + 1) + n from by omega]
      refine ih (gen + 1) _ ?_
      rw [reproState_improvements, reproState_bestEver]
      exact evalState_ImpInv env ffn gen st h

lemma evolveLoop_break_at (env : Env) (ffn : String) (mr cr : ℚ) (ec : Nat) :
    ∀ (remaining gen : Nat) (st : EvoState),
    (∀ q ∈ st.trace, q < 0.98) → ∀ i : Nat,
    (0.98 : ℚ) ≤ (evolveLoop env ffn mr cr ec remaining gen st).trace.getD i 0 →
    (evolveLoop env ffn mr cr ec remaining gen st).trace.length = i + 1 ∧
      (evolveLoop env ffn mr cr ec remaining gen st).ctr.reproCalls + st.trace.length =
        st.ctr.reproCalls + i := by
  intro remaining
  induction remaining with
  | zero =>
    intro gen st hst i hi
    exfalso
    rw [evolveLoop] at hi
    by_cases hlen : i < st.trace.length
    · rw [List.getD_eq_getElem _ _ hlen] at hi
      exact absurd hi (not_le.mpr (hst _ (List.getElem_mem hlen)))
    · rw [List.getD_eq_default _ _ (le_of_not_lt hlen)] at hi
      norm_num at hi
  | succ n ih =>
    intro gen st hst i hi
    rw [evolveLoop] at hi ⊢
    by_cases hbreak : (0.98 : ℚ) ≤ currentBestFitness env ffn st
    · rw [if_pos hbreak] at hi ⊢
      rw [evalState_trace] at hi ⊢
      rw [evalState_ctr_reproCalls]
      rcases lt_trichotomy i st.trace.length with hlt | heq | hgt
      · exfalso
        rw [List.getD_append _ _ _ _ hlt] at hi
        rw [List.getD_eq_getElem _ _ hlt] at hi
        exact absurd hi (not_le.mpr (hst _ (List.getElem_mem hlt)))
      · subst heq
        constructor
        · simp
        · rfl
      · exfalso
        have hlen : (st.trace ++ [currentBestFitness env ffn st]).length ≤ i := by
          simp only [List.length_append, List.length_cons, List.length_nil]
          omega
        rw [List.getD_eq_default _ _ hlen] at hi
        norm_num at hi
    · rw [if_neg hbreak] at hi ⊢
      have hst2 : ∀ q ∈ (reproState env mr cr ec (evalState env ffn gen st)).trace,
          q < 0.98 := by
        rw [reproState_trace, evalState_trace]
        intro q hq
        rw [List.mem_append] at hq
        rcases hq with hq | hq
        · exact hst q hq
        · simp only [List.mem_singleton] at hq
          subst hq
          exact lt_of_not_le hbreak
      obtain ⟨h1, h2⟩ := ih (gen + 1) _ hst2 i hi
      refine ⟨h1, ?_⟩
      rw [reproState_trace, evalState_trace] at h2
      rw [reproState_ctr_reproCalls, evalState_ctr_reproCalls] at h2
      simp only [List.length_append, List.length_cons, List.length_nil] at h2
      omega

lemma evolveLoop_improvements_le_trace (env : Env) (ffn : String) (mr cr : ℚ) (ec : Nat) :
    ∀ (remaining gen : Nat) (st : EvoState),
    (evolveLoop env ffn mr cr ec remaining gen st).improvements.length + st.trace.length ≤
      st.improvements.length + (evolveLoop env ffn mr cr ec remaining gen st).trace.length := by
  intro remaining
  induction remaining with
  | zero =>
    intro gen st
    rw [evolveLoop]
  | succ n ih =>
    intro gen st
    rw [evolveLoop]
    split
    · have h1 := evalState_improvements_length env ffn gen st
      have h2 := evalState_trace_length env ffn gen st
      omega
    · have h0 := ih (gen + 1) (reproState env mr cr ec (evalState env ffn gen st))
      have h1 := evalState_improvements_length env ffn gen st
      have h2 := evalState_trace_length env ffn gen st
      rw [reproState_trace, reproState_improvements] at h0
      omega

lemma evolveLoop_reproCalls_total (env : Env) (ffn : String) (mr cr : ℚ) (ec : Nat) :
    ∀ (remaining gen : Nat) (st : EvoState),
    (∀ q ∈ (evolveLoop env ffn mr cr ec remaining gen st).trace, q < 0.98) →
    (evolveLoop env ffn mr cr ec remaining gen st).ctr.reproCalls =
      st.ctr.reproCalls + remaining := by
  intro remaining
  induction remaining with
  | zero =>
    intro gen st _
    rw [evolveLoop]
    omega
  | succ n ih =>
    intro gen st h
    rw [evolveLoop] at h ⊢
    by_cases hbreak : (0.98 : ℚ) ≤ currentBestFitness env ffn st
    · exfalso
      rw [if_pos hbreak] at h
      rw [evalState_trace] at h
      have := h _ (List.mem_append_right st.trace (List.mem_singleton_self _))
      exact absurd hbreak (not_le.mpr this)
    · rw [if_neg hbreak] at h ⊢
      have h3 := ih (gen + 1) _ h
      rw [reproState_ctr_reproCalls, evalState_ctr_reproCalls] at h3
      omega

lemma evolveLoopSkipFinal_obs (env : Env) (ffn : String) (mr cr : ℚ) (ec : Nat) :
    ∀ (remaining gen : Nat) (st : EvoState),
    (evolveLoopSkipFinal env ffn mr cr ec remaining gen st).bestEver =
      (evolveLoop env ffn mr cr ec remaining gen st).bestEver ∧
    (evolveLoopSkipFinal env ffn mr cr ec remaining gen st).improvements =
      (evolveLoop env ffn mr cr ec remaining gen st).improvements := by
  intro remaining
  induction remaining with
  | zero =>
    intro gen st
    exact ⟨rfl, rfl⟩
  | succ n ih =>
    intro gen st
    cases n with
    | zero =>
      rw [evolveLoopSkipFinal, evolveLoop]
      split
      · exact ⟨rfl, rfl⟩
      · rw [evolveLoop]
        exact ⟨(reproState_bestEver env mr cr ec _).symm,
          (reproState_improvements env mr cr ec _).symm⟩
    | succ r =>
      rw [evolveLoopSkipFinal, evolveLoop]
      split
      · exact ⟨rfl, rfl⟩
      · exact ih (gen + 1) (reproState env mr cr ec (evalState env ffn gen st))

lemma evolveLoop_population_length (env : Env) (ffn : String) (mr cr : ℚ) (ec : Nat)
    {ps : Nat} (hec : ec ≤ ps) :
    ∀ (remaining gen : Nat) (st : EvoState), st.population.length = ps →
    (evolveLoop env ffn mr cr ec remaining gen st).population.length = ps := by
  intro remaining
  induction remaining with
  | zero =>
    intro gen st h
    rw [evolveLoop]
    exact h
  | succ n ih =>
    intro gen st h
    rw [evolveLoop]
    have h1 : (evalState env ffn gen st).population.length = ps := by
      rw [evalState_population, evaluateFitness_length, h]
    split
    · exact h1
    · refine ih (gen + 1) _ ?_
      rw [reproState_population_length, h1]
      omega

lemma calculatePromptFitness_zero (env : Env)
    (H : ∀ i s r, env.gen i s = some r → fitnessOfResult r = 0) (c : Ctr) (p ft : String) :
    (calculatePromptFitness env c p ft).1 = 0 := by
  rw [calculatePromptFitness, callGen]
  rcases hg : env.gen c.g (fitnessPromptContent p) with _ | r
  · rfl
  · exact H _ _ _ hg

lemma evalEach_fitness_zero (env : Env)
    (H : ∀ i s r, env.gen i s = some r → fitnessOfResult r = 0) (ffn : String)
    (l : List Individual) : ∀ c : Ctr, ∀ x ∈ (evalEach env ffn c l).1, x.fitness = 0 := by
  induction l with
  | nil => intro c x hx; simp [evalEach] at hx
  | cons ind rest ih =>
    intro c x hx
    rw [evalEach] at hx
    simp only [List.mem_cons] at hx
    rcases hx with hx | hx
    · subst hx
      exact calculatePromptFitness_zero env H c ind.prompt ffn
    · exact ih _ x hx

lemma currentBestFitness_zero (env : Env)
    (H : ∀ i s r, env.gen i s = some r → fitnessOfResult r = 0) (ffn : String)
    (st : EvoState) : currentBestFitness env ffn st = 0 := by
  rw [currentBestFitness, evaluateFitness]
  rcases hx : sortByFitnessDesc (evalEach env ffn st.ctr st.population).1 with _ | ⟨h, t⟩
  · rfl
  · have hm : h ∈ sortByFitnessDesc (evalEach env ffn st.ctr st.population).1 := by
      rw [hx]; exact List.mem_cons_self h t
    rw [mem_sortByFitnessDesc] at hm
    exact evalEach_fitness_zero env H ffn st.population st.ctr h hm

lemma evalState_allzero (env : Env)
    (H : ∀ i s r, env.gen i s = some r → fitnessOfResult r = 0) (ffn : String) (gen : Nat)
    (st : EvoState) (hbe : st.bestEver.fitness = 0) :
    (evalState env ffn gen st).bestEver = st.bestEver ∧
      (evalState env ffn gen st).improvements = st.improvements := by
  have hcb : ((evaluateFitness env st.ctr st.population ffn).1.headD defaultIndividual).fitness
      = 0 := currentBestFitness_zero env H ffn st
  rw [evalState_bestEver, evalState_improvements, trackBest]
  rw [if_neg (by rw [hcb, hbe]; exact lt_irrefl 0)]
  exact ⟨rfl, rfl⟩

lemma evolveLoop_allzero (env : Env)
    (H : ∀ i s r, env.gen i s = some r → fitnessOfResult r = 0) (ffn : String)
    (mr cr : ℚ) (ec : Nat) :
    ∀ (remaining gen : Nat) (st : EvoState), st.bestEver.fitness = 0 →
    (evolveLoop env ffn mr cr ec remaining gen st).bestEver = st.bestEver ∧
      (evolveLoop env ffn mr cr ec remaining gen st).improvements = st.improvements := by
  intro remaining
  induction remaining with
  | zero =>
    intro gen st _
    rw [evolveLoop]
    exact ⟨rfl, rfl⟩
  | succ n ih =>
    intro gen st hbe
    rw [evolveLoop]
    obtain ⟨hb1, hi1⟩ := evalState_allzero env H ffn gen st hbe
    split
    · exact ⟨hb1, hi1⟩
    · have hbe2 : (reproState env mr cr ec (evalState env ffn gen st)).bestEver.fitness = 0 := by
        rw [reproState_bestEver, hb1, hbe]
      obtain ⟨hb2, hi2⟩ := ih (gen + 1) _ hbe2
      rw [hb2, hi2, reproState_bestEver, reproState_improvements, hb1, hi1]
      exact ⟨rfl, rfl⟩

/-! Facts about the initial state of a run. -/

lemma initState_population (env : Env) (cfg : EvolutionConfig) (c : Ctr) :
    (initState env cfg c).population =
      (initializePopulation env c cfg.basePrompt cfg.populationSize).1 := rfl

lemma initState_bestEver (env : Env) (cfg : EvolutionConfig) (c : Ctr) :
    (initState env cfg c).bestEver = ⟨cfg.basePrompt, 0⟩ := rfl

lemma initState_improvements (env : Env) (cfg : EvolutionConfig) (c : Ctr) :
    (initState env cfg c).improvements = [] := rfl

lemma initState_trace (env : Env) (cfg : EvolutionConfig) (c : Ctr) :
    (initState env cfg c).trace = [] := rfl

lemma initState_ctr_reproCalls (env : Env) (cfg : EvolutionConfig) (c : Ctr) :
    (initState env cfg c).ctr.reproCalls = c.reproCalls := by
  show (initializePopulation env c cfg.basePrompt cfg.populationSize).2.reproCalls = _
  rw [initializePopulation_ctr]

lemma initState_ImpInv (env : Env) (cfg : EvolutionConfig) (c : Ctr) :
    ImpInv 0 (initState env cfg c).improvements (initState env cfg c).bestEver.fitness := by
  refine ⟨trivial, List.chain'_nil, rfl, le_refl 0, ?_⟩
  intro r hr
  rw [initState_improvements] at hr
  exact absurd hr (List.not_mem_nil r)

/-! The claims. -/

/-- C1 (amended): at every point of a run of evolvePrompt, the improvements
log is a difference chain from the initial best-ever fitness 0: every
appended GenerationRecord has improvement = its fitness minus the previous
best-ever fitness, and in particular the first recorded improvement equals
its own fitness (the initial best-ever fitness being 0), not 0. -/
theorem genesis_C1_improvement_chain (env : Env) (cfg : EvolutionConfig) (c : Ctr) (n : Nat) :
    improvementChain 0 ((runUpTo env cfg c n).improvements) := by
  rw [runUpTo]
  exact (evolveLoop_ImpInv env cfg.fitnessFunction cfg.mutationRate cfg.crossoverRate
    (eliteCountOf cfg.populationSize) n 0 (initState env cfg c)
    (initState_ImpInv env cfg c)).1

/-- C10: at every point of a run of evolvePrompt the improvements log is
strictly increasing in both generation index and fitness, and the fitness of
its last entry equals the best-ever fitness (with the convention lastFitness
[] = 0 matching the initial best-ever fitness 0). -/
theorem genesis_C10_improvements_monotone (env : Env) (cfg : EvolutionConfig) (c : Ctr)
    (n : Nat) :
    List.Chain' strictRecord (runUpTo env cfg c n).improvements ∧
    lastFitness (runUpTo env cfg c n).improvements = (runUpTo env cfg c n).bestEver.fitness := by
  rw [runUpTo]
  have h := evolveLoop_ImpInv env cfg.fitnessFunction cfg.mutationRate cfg.crossoverRate
    (eliteCountOf cfg.populationSize) n 0 (initState env cfg c) (initState_ImpInv env cfg c)
  exact ⟨h.2.1, h.2.2.1⟩

/-- C4: when every fitness evaluation yields 0 (in particular when every
external call fails), the improvements list stays empty and the engine still
returns the well-formed result best = basePrompt, fitness = 0,
generationsRun = 0. -/
theorem genesis_C4_all_failures (env : Env) (cfg : EvolutionConfig) (c : Ctr)
    (H : ∀ i s r, env.gen i s = some r → fitnessOfResult r = 0) :
    evolvePrompt env cfg c = ⟨cfg.basePrompt, 0, 0, []⟩ := by
  obtain ⟨hb, hi⟩ := evolveLoop_allzero env H cfg.fitnessFunction cfg.mutationRate
    cfg.crossoverRate (eliteCountOf cfg.populationSize) cfg.generations 0 (initState env cfg c)
    rfl
  rw [evolvePrompt, evolveRun, runUpTo, resultOf, hb, hi]
  rfl

/-- C9: in a run that never reaches the 0.98 convergence threshold, the
reproduction step runs in every generation, the final one included
(reproCalls grows by exactly generations), and the returned EvolutionResult
is identical to that of the variant of evolvePrompt that skips the final
reproduction step: the last offspring population is never evaluated. -/
theorem genesis_C9_last_reproduction_unobservable (env : Env) (cfg : EvolutionConfig)
    (c : Ctr) (H : ∀ q ∈ (evolveRun env cfg c).trace, q < 0.98) :
    (evolveRun env cfg c).ctr.reproCalls = c.reproCalls + cfg.generations ∧
    evolvePrompt env cfg c = evolvePromptNoFinalRepro env cfg c := by
  constructor
  · rw [evolveRun, runUpTo] at H ⊢
    rw [evolveLoop_reproCalls_total env cfg.fitnessFunction cfg.mutationRate cfg.crossoverRate
      (eliteCountOf cfg.populationSize) cfg.generations 0 (initState env cfg c) H]
    rw [initState_ctr_reproCalls]
  · obtain ⟨hb, hi⟩ := evolveLoopSkipFinal_obs env cfg.fitnessFunction cfg.mutationRate
      cfg.crossoverRate (eliteCountOf cfg.populationSize) cfg.generations 0 (initState env cfg c)
    rw [evolvePrompt, evolveRun, runUpTo, evolvePromptNoFinalRepro, resultOf, resultOf, hb, hi]

/-- C7: with populationSize at least 2, the population has length exactly
populationSize after initialization and after every generation of the loop
(evaluation and reproduction both preserve the size). -/
theorem genesis_C7_population_size_invariant (env : Env) (cfg : EvolutionConfig) (c : Ctr)
    (n : Nat) (h2 : 2 ≤ cfg.populationSize) :
    (initializePopulation env c cfg.basePrompt cfg.populationSize).1.length =
      cfg.populationSize ∧
    (runUpTo env cfg c n).population.length = cfg.populationSize := by
  have hec : eliteCountOf cfg.populationSize ≤ cfg.populationSize := by
    rw [eliteCountOf]
    have := Nat.div_le_self cfg.populationSize 10
    omega
  refine ⟨initializePopulation_length env c _ _ (by omega), ?_⟩
  rw [runUpTo]
  refine evolveLoop_population_length env cfg.fitnessFunction cfg.mutationRate
    cfg.crossoverRate (eliteCountOf cfg.populationSize) hec n 0 (initState env cfg c) ?_
  rw [initState_population]
  exact initializePopulation_length env c _ _ (by omega)

/-- C2: if the best fitness of a run reaches 0.98 at generation g (recorded
in the ghost trace) with g below generations - 1, the loop stops at
generation g: exactly g + 1 generations are evaluated, reproduction ran only
for the g earlier generations (so it is skipped at generation g), and
generationsRun is at most g + 1. -/
theorem genesis_C2_convergence (env : Env) (cfg : EvolutionConfig) (c : Ctr) (g : Nat)
    (hg : g < cfg.generations - 1)
    (hf : (0.98 : ℚ) ≤ (evolveRun env cfg c).trace.getD g 0) :
    (evolveRun env cfg c).trace.length = g + 1 ∧
    (evolveRun env cfg c).ctr.reproCalls = c.reproCalls + g ∧
    (evolvePrompt env cfg c).generationsRun ≤ g + 1 := by
  rw [evolveRun, runUpTo] at hf ⊢
  have hstart : ∀ q ∈ (initState env cfg c).trace, q < 0.98 := by
    intro q hq
    rw [initState_trace] at hq
    exact absurd hq (List.not_mem_nil q)
  obtain ⟨hl, hr⟩ := evolveLoop_break_at env cfg.fitnessFunction cfg.mutationRate
    cfg.crossoverRate (eliteCountOf cfg.populationSize) cfg.generations 0
    (initState env cfg c) hstart g hf
  rw [initState_trace] at hr
  simp only [List.length_nil] at hr
  rw [initState_ctr_reproCalls] at hr
  refine ⟨hl, by omega, ?_⟩
  have h3 := evolveLoop_improvements_le_trace env cfg.fitnessFunction cfg.mutationRate
    cfg.crossoverRate (eliteCountOf cfg.populationSize) cfg.generations 0 (initState env cfg c)
  rw [initState_trace, initState_improvements] at h3
  simp only [List.length_nil] at h3
  rw [evolvePrompt, evolveRun, runUpTo, resultOf]
  dsimp only
  omega

/-- C8: when the external text-generation service fails, mutatePrompt returns
its input prompt unchanged, crossoverPrompts returns one of its two parents,
and calculatePromptFitness returns 0; all three recover locally and, being
total functions, propagate no error. -/
theorem genesis_C8_failure_fallbacks (env : Env) (c : Ctr) (p : String) (s : ℚ)
    (p1 p2 fp ft : String) (H : ∀ i str, env.gen i str = none) :
    (mutatePrompt env c p s).1 = p ∧
    ((crossoverPrompts env c p1 p2).1 = p1 ∨ (crossoverPrompts env c p1 p2).1 = p2) ∧
    (calculatePromptFitness env c fp ft).1 = 0 := by
  refine ⟨?_, ?_, ?_⟩
  · rw [mutatePrompt]
    simp only [mathRandom, callGen, H]
  · rw [crossoverPrompts]
    simp only [callGen, mathRandom, H]
    split
    · left; rfl
    · right; rfl
  · rw [calculatePromptFitness, callGen, H]

/-! Concrete environments and configurations for witnesses and
counterexamples. -/

set_option maxRecDepth 4000

def ctr0 : Ctr := ⟨0, 0, 0, 0, 0⟩

/-- Environment in which every external call fails. -/
def failEnv : Env := ⟨fun _ _ => none, fun _ => 0⟩

def failConfig : EvolutionConfig := ⟨"base", "quality", 2, 2, 0, 0⟩

def sizeThreeConfig : EvolutionConfig := ⟨"base", "quality", 1, 3, 0, 0⟩

/-- Environment whose generated response is always the single character
with code point 91. -/
def bracketOnlyEnv : Env := ⟨fun _ _ => some "[", fun _ => 0⟩

def degenerateConfig : EvolutionConfig := ⟨"base", "quality", 1, 1, 0, 0⟩

/-- A response that earns every bonus: structure marker, four coding words,
a justification marker and all five methodological terms. -/
def fullResponse : String :=
  "[ Code Code Code Code weil induktiv deduktiv Ankerbeispiel Dimension Eigenschaft"

def fullResponseEnv : Env := ⟨fun _ _ => some fullResponse, fun _ => 0⟩

def convergeConfig : EvolutionConfig := ⟨"base", "quality", 3, 1, 0, 0⟩

/-- A response containing exactly the five methodological terms. -/
def allMethodTermsResponse : String := "induktiv deduktiv Ankerbeispiel Dimension Eigenschaft"

/-! Fitness values of the concrete responses. -/

lemma structureBonus_bracket : structureBonus "[" = 0.2 := by
  rw [structureBonus, if_pos]
  rw [show hasSubstring "[".data [Char.ofNat 91] = true from by decide]
  simp

lemma codingBonus_bracket : codingBonus "[" = 0 := by
  rw [codingBonus, show countCodings "[" = 0 from by decide]
  norm_num

lemma reasoningBonus_bracket : reasoningBonus "[" = 0 := by
  rw [reasoningBonus, if_neg]
  rw [show strIncludes "[" "weil" = false from by decide,
      show strIncludes "[" "da" = false from by decide,
      show strIncludes "[" "Begründung" = false from by decide]
  simp

lemma methodBonus_bracket : methodBonus "[" = 0 := by
  rw [methodBonus, show methodScoreOf "[" = 0 from by decide]
  norm_num

lemma lengthBonus_bracket : lengthBonus "[" = 1/7500 := by
  rw [lengthBonus]
  rw [show "[".length = 1 from by decide]
  rw [show |((1:ℕ):ℚ) - (idealLength:ℚ)| = 1499 from by
    rw [idealLength]; rw [abs_sub_comm]; rw [abs_of_nonneg (by norm_num)]; norm_num]
  rw [idealLength]
  norm_num

lemma fitnessOfResult_bracket : fitnessOfResult "[" = 1501/7500 := by
  rw [fitnessOfResult, rawFitness, structureBonus_bracket, codingBonus_bracket,
    reasoningBonus_bracket, methodBonus_bracket, lengthBonus_bracket]
  rw [min_eq_left (by norm_num)]
  norm_num

lemma structureBonus_full : structureBonus fullResponse = 0.2 := by
  rw [structureBonus, if_pos]
  rw [show hasSubstring fullResponse.data [Char.ofNat 91] = true from by decide]
  simp

lemma codingBonus_full : codingBonus fullResponse = 0.2 := by
  rw [codingBonus, show countCodings fullResponse = 4 from by decide]
  rw [min_eq_right (by norm_num)]

lemma reasoningBonus_full : reasoningBonus fullResponse = 0.2 := by
  rw [reasoningBonus, if_pos]
  rw [show strIncludes fullResponse "weil" = true from by decide]
  simp

lemma methodBonus_full : methodBonus fullResponse = 0.4 := by
  rw [methodBonus, show methodScoreOf fullResponse = 5 from by decide]
  norm_num

lemma lengthBonus_full : lengthBonus fullResponse = 4/375 := by
  rw [lengthBonus]
  rw [show fullResponse.length = 80 from by decide]
  rw [show |((80:ℕ):ℚ) - (idealLength:ℚ)| = 1420 from by
    rw [idealLength]; rw [abs_sub_comm]; rw [abs_of_nonneg (by norm_num)]; norm_num]
  rw [idealLength]
  norm_num

lemma rawFitness_full : rawFitness fullResponse = 379/375 := by
  rw [rawFitness, structureBonus_full, codingBonus_full, reasoningBonus_full,
    methodBonus_full, lengthBonus_full]
  norm_num

lemma fitnessOfResult_full : fitnessOfResult fullResponse = 1 := by
  rw [fitnessOfResult, rawFitness_full, min_eq_right (by norm_num)]

/-! Evaluation of degenerate single-individual runs. -/

lemma evolvePopulation_ctr_of_le (env : Env) (c : Ctr) (pop : List Individual) (mr cr : ℚ)
    (ec : Nat) (h : pop.length ≤ ec) : (evolvePopulation env c pop mr cr ec).2 = bumpRepro c := by
  rw [evolvePopulation, reproduceLoop, eliteSlice_length, Nat.sub_eq_zero_of_le h]
  rfl

lemma evolveRun_1_1 (env : Env) (base ffn : String) (mr cr : ℚ) (c : Ctr) :
    (evolveRun env ⟨base, ffn, 1, 1, mr, cr⟩ c).bestEver =
      ⟨base, (calculatePromptFitness env c base ffn).1⟩ ∧
    (evolveRun env ⟨base, ffn, 1, 1, mr, cr⟩ c).improvements =
      (if 0 < (calculatePromptFitness env c base ffn).1
       then [⟨0, (calculatePromptFitness env c base ffn).1,
         (calculatePromptFitness env c base ffn).1⟩]
       else []) ∧
    (evolveRun env ⟨base, ffn, 1, 1, mr, cr⟩ c).ctr.mutCalls = c.mutCalls ∧
    (evolveRun env ⟨base, ffn, 1, 1, mr, cr⟩ c).ctr.crossCalls = c.crossCalls := by
  have key : evolveRun env ⟨base, ffn, 1, 1, mr, cr⟩ c =
      (if (0.98 : ℚ) ≤ currentBestFitness env ffn ⟨[⟨base, 0⟩], ⟨base, 0⟩, [], c, []⟩
       then evalState env ffn 0 ⟨[⟨base, 0⟩], ⟨base, 0⟩, [], c, []⟩
       else reproState env mr cr 2
         (evalState env ffn 0 ⟨[⟨base, 0⟩], ⟨base, 0⟩, [], c, []⟩)) := by
    with_unfolding_all rfl
  have hbe : (evalState env ffn 0 ⟨[⟨base, 0⟩], ⟨base, 0⟩, [], c, []⟩).bestEver =
      (trackBest 0 ⟨base, (calculatePromptFitness env c base ffn).1⟩ ⟨base, 0⟩ []).1 := rfl
  have himp : (evalState env ffn 0 ⟨[⟨base, 0⟩], ⟨base, 0⟩, [], c, []⟩).improvements =
      (trackBest 0 ⟨base, (calculatePromptFitness env c base ffn).1⟩ ⟨base, 0⟩ []).2 := rfl
  have htb1 : (trackBest 0 ⟨base, (calculatePromptFitness env c base ffn).1⟩ ⟨base, 0⟩ []).1 =
      ⟨base, (calculatePromptFitness env c base ffn).1⟩ := by
    rw [trackBest]
    dsimp only
    split
    · rfl
    · rename_i h
      have h0 : (calculatePromptFitness env c base ffn).1 = 0 :=
        le_antisymm (not_lt.mp h) (calculatePromptFitness_nonneg env c base ffn)
      rw [h0]
  have htb2 : (trackBest 0 ⟨base, (calculatePromptFitness env c base ffn).1⟩ ⟨base, 0⟩ []).2 =
      (if 0 < (calculatePromptFitness env c base ffn).1
       then [⟨0, (calculatePromptFitness env c base ffn).1,
         (calculatePromptFitness env c base ffn).1⟩]
       else []) := by
    rw [trackBest]
    dsimp only
    split
    · simp [lastFitness]
    · rfl
  have hpoplen : (evalState env ffn 0 ⟨[⟨base, 0⟩], ⟨base, 0⟩, [], c, []⟩).population.length
      = 1 := by
    rw [evalState_population, evaluateFitness_length]
    rfl
  have hctr2 : (reproState env mr cr 2
      (evalState env ffn 0 ⟨[⟨base, 0⟩], ⟨base, 0⟩, [], c, []⟩)).ctr =
      bumpRepro ((evalState env ffn 0 ⟨[⟨base, 0⟩], ⟨base, 0⟩, [], c, []⟩).ctr) :=
    evolvePopulation_ctr_of_le env _ _ mr cr 2 (by rw [hpoplen]; omega)
  have hctr1 : (evalState env ffn 0 ⟨[⟨base, 0⟩], ⟨base, 0⟩, [], c, []⟩).ctr =
      ⟨c.g + 1, c.r, c.mutCalls, c.crossCalls, c.reproCalls⟩ := by
    rw [evalState_ctr, evaluateFitness_ctr]
    rfl
  refine ⟨?_, ?_, ?_, ?_⟩
  · rw [key]
    split
    · rw [hbe, htb1]
    · rw [reproState_bestEver, hbe, htb1]
  · rw [key]
    split
    · rw [himp, htb2]
    · rw [reproState_improvements, himp, htb2]
  · rw [key]
    split
    · rw [hctr1]
    · rw [hctr2, hctr1]
      rfl
  · rw [key]
    split
    · rw [hctr1]
    · rw [hctr2, hctr1]
      rfl

lemma evolveRun_1_converges (env : Env) (base ffn : String) (mr cr : ℚ) (c : Ctr) (k : Nat)
    (hf : (0.98 : ℚ) ≤ (calculatePromptFitness env c base ffn).1) :
    (evolveRun env ⟨base, ffn, k + 1, 1, mr, cr⟩ c).trace =
      [(calculatePromptFitness env c base ffn).1] := by
  have key : evolveRun env ⟨base, ffn, k + 1, 1, mr, cr⟩ c =
      (if (0.98 : ℚ) ≤ currentBestFitness env ffn ⟨[⟨base, 0⟩], ⟨base, 0⟩, [], c, []⟩
       then evalState env ffn 0 ⟨[⟨base, 0⟩], ⟨base, 0⟩, [], c, []⟩
       else evolveLoop env ffn mr cr 2 k 1
         (reproState env mr cr 2
           (evalState env ffn 0 ⟨[⟨base, 0⟩], ⟨base, 0⟩, [], c, []⟩))) := by
    with_unfolding_all rfl
  have hcb : currentBestFitness env ffn ⟨[⟨base, 0⟩], ⟨base, 0⟩, [], c, []⟩ =
      (calculatePromptFitness env c base ffn).1 := rfl
  rw [key, hcb, if_pos hf, evalState_trace, hcb]
  rfl

lemma calculatePromptFitness_fullEnv :
    (calculatePromptFitness fullResponseEnv ctr0 "base" "quality").1 = 1 := by
  have h : (calculatePromptFitness fullResponseEnv ctr0 "base" "quality").1 =
      fitnessOfResult fullResponse := rfl
  rw [h, fitnessOfResult_full]

lemma evolveRun_fullEnv_trace :
    (evolveRun fullResponseEnv convergeConfig ctr0).trace = [1] := by
  have h := evolveRun_1_converges fullResponseEnv "base" "quality" 0 0 ctr0 2
    (by rw [calculatePromptFitness_fullEnv]; norm_num)
  rw [calculatePromptFitness_fullEnv] at h
  exact h

/-! The remaining claims and the witnesses. -/

/-- C3: a run with generations = 1 and populationSize = 1 reduces to plain
evaluation: the returned best prompt is the unmodified base prompt, the
returned fitness is the freshly computed fitness of the base prompt, and no
mutation or crossover call is made anywhere in the run (both ghost call
counters stay unchanged; the reproduction step entered after the single
evaluation copies elites only and applies no genetic operator). -/
theorem genesis_C3_degenerate_run (env : Env) (base ffn : String) (mr cr : ℚ) (c : Ctr) :
    (evolvePrompt env ⟨base, ffn, 1, 1, mr, cr⟩ c).best = base ∧
    (evolvePrompt env ⟨base, ffn, 1, 1, mr, cr⟩ c).fitness =
      (calculatePromptFitness env c base ffn).1 ∧
    (evolveRun env ⟨base, ffn, 1, 1, mr, cr⟩ c).ctr.mutCalls = c.mutCalls ∧
    (evolveRun env ⟨base, ffn, 1, 1, mr, cr⟩ c).ctr.crossCalls = c.crossCalls := by
  obtain ⟨hb, _, hm, hc⟩ := evolveRun_1_1 env base ffn mr cr c
  refine ⟨?_, ?_, hm, hc⟩
  · show (resultOf _).best = base
    rw [resultOf]
    dsimp only
    rw [hb]
  · show (resultOf _).fitness = _
    rw [resultOf]
    dsimp only
    rw [hb]

/-- C1 (counterexample): a concrete run in which the first recorded
GenerationRecord has improvement 1501/7500, its own fitness, refuting the
claim that the first recorded improvement is 0. -/
theorem genesis_C1_counterexample :
    (evolvePrompt bracketOnlyEnv degenerateConfig ctr0).improvements =
      [⟨0, 1501/7500, 1501/7500⟩] ∧ ((1501 : ℚ)/7500) ≠ 0 := by
  constructor
  · have calcbr : (calculatePromptFitness bracketOnlyEnv ctr0 "base" "quality").1 =
        1501/7500 := by
      have h : (calculatePromptFitness bracketOnlyEnv ctr0 "base" "quality").1 =
          fitnessOfResult "[" := rfl
      rw [h, fitnessOfResult_bracket]
    have h := (evolveRun_1_1 bracketOnlyEnv "base" "quality" 0 0 ctr0).2.1
    rw [calcbr, if_pos (by norm_num : (0:ℚ) < 1501/7500)] at h
    show (resultOf (evolveRun bracketOnlyEnv degenerateConfig ctr0)).improvements = _
    rw [resultOf]
    dsimp only
    exact h
  · norm_num

/-- C5 (code is wrong): the methodological-terms sub-signal is a per-term
bonus of 0.08 that is summed with no cap: a response containing all five
terms contributes the full sum 5 * 0.08 = 0.4, strictly above the weight 0.2
that the exported GENESIS_CONFIG documents for every metric, methodology
included. -/
theorem genesis_C5_method_bonus_uncapped :
    methodScoreOf allMethodTermsResponse = methodTerms.length ∧
    methodBonus allMethodTermsResponse = (methodTerms.length : ℚ) * 0.08 ∧
    (∀ m ∈ GENESIS_CONFIG_fitnessMetrics, m.2.weight = 0.2) ∧
    (0.2 : ℚ) < methodBonus allMethodTermsResponse := by
  have hs : methodScoreOf allMethodTermsResponse = 5 := by decide
  have hb : methodBonus allMethodTermsResponse = 0.4 := by
    rw [methodBonus, hs]
    norm_num
  refine ⟨by rw [hs]; rfl, ?_, ?_, ?_⟩
  · rw [hb, show methodTerms.length = 5 from rfl]
    norm_num
  · intro m hm
    fin_cases hm <;> rfl
  · rw [hb]
    norm_num

/-- C6: the fitness returned by calculatePromptFitness always lies in [0, 1],
for every environment outcome, even though the intermediate sub-signal sum
can exceed 1, as the concrete response fullResponse shows. -/
theorem genesis_C6_fitness_clamped :
    (∀ (env : Env) (c : Ctr) (p ft : String),
      0 ≤ (calculatePromptFitness env c p ft).1 ∧ (calculatePromptFitness env c p ft).1 ≤ 1) ∧
    (1 : ℚ) < rawFitness fullResponse :=
  ⟨fun env c p ft => ⟨calculatePromptFitness_nonneg env c p ft,
      calculatePromptFitness_le_one env c p ft⟩,
    by rw [rawFitness_full]; norm_num⟩

/-- C2 (witness): a concrete converging run, stopping at generation 0 of 3
with one evaluated generation, no reproduction and generationsRun 1. -/
theorem genesis_C2_witness :
    0 < convergeConfig.generations - 1 ∧
    (0.98 : ℚ) ≤ (evolveRun fullResponseEnv convergeConfig ctr0).trace.getD 0 0 ∧
    ((evolveRun fullResponseEnv convergeConfig ctr0).trace.length = 0 + 1 ∧
      (evolveRun fullResponseEnv convergeConfig ctr0).ctr.reproCalls = ctr0.reproCalls + 0 ∧
      (evolvePrompt fullResponseEnv convergeConfig ctr0).generationsRun ≤ 0 + 1) := by
  have hget : (0.98 : ℚ) ≤ (evolveRun fullResponseEnv convergeConfig ctr0).trace.getD 0 0 := by
    rw [evolveRun_fullEnv_trace]
    show (0.98 : ℚ) ≤ 1
    norm_num
  exact ⟨by decide, hget,
    genesis_C2_convergence fullResponseEnv convergeConfig ctr0 0 (by decide) hget⟩

/-- C4 (witness): the all-failures environment yields the degraded but
well-formed result. -/
theorem genesis_C4_witness : evolvePrompt failEnv failConfig ctr0 = ⟨"base", 0, 0, []⟩ :=
  genesis_C4_all_failures failEnv failConfig ctr0 (fun _ _ _ h => nomatch h)

/-- C7 (witness): a concrete run with populationSize 3 keeps the population
at size 3. -/
theorem genesis_C7_witness :
    (initializePopulation failEnv ctr0 sizeThreeConfig.basePrompt
      sizeThreeConfig.populationSize).1.length = sizeThreeConfig.populationSize ∧
    (runUpTo failEnv sizeThreeConfig ctr0 1).population.length =
      sizeThreeConfig.populationSize :=
  genesis_C7_population_size_invariant failEnv sizeThreeConfig ctr0 1 (by decide)

/-- C8 (witness): the three fallbacks at concrete inputs under the
all-failures environment. -/
theorem genesis_C8_witness :
    (mutatePrompt failEnv ctr0 "p" 0.3).1 = "p" ∧
    ((crossoverPrompts failEnv ctr0 "a" "b").1 = "a" ∨
      (crossoverPrompts failEnv ctr0 "a" "b").1 = "b") ∧
    (calculatePromptFitness failEnv ctr0 "p" "quality").1 = 0 :=
  genesis_C8_failure_fallbacks failEnv ctr0 "p" 0.3 "a" "b" "p" "quality" (fun _ _ => rfl)

/-- C9 (witness): a concrete never-converging run with 2 generations does
2 reproductions and returns the same result as the skip-final variant. -/
theorem genesis_C9_witness :
    (evolveRun failEnv failConfig ctr0).ctr.reproCalls =
      ctr0.reproCalls + failConfig.generations ∧
    evolvePrompt failEnv failConfig ctr0 = evolvePromptNoFinalRepro failEnv failConfig ctr0 := by
  have htr : (evolveRun failEnv failConfig ctr0).trace = [0, 0] := by
    with_unfolding_all decide
  refine genesis_C9_last_reproduction_unobservable failEnv failConfig ctr0 ?_
  rw [htr]
  intro q hq
  simp only [List.mem_cons, List.not_mem_nil, or_false] at hq
  rcases hq with h | h <;> (subst h; norm_num)

end Genesis
